import Mathlib

/-!
Verification of the invoice-intake pipeline of `apple-invoice-pdf` (`src/main.go`).

The Go code is shallowly embedded:
* strings are Lean `String`s, with the `strings` package operations used by
  the code (`Contains`, `ToLower`, `TrimSpace`, `TrimPrefix`, `HasPrefix`,
  `IndexAny`) re-defined below on the underlying character lists
  (`go`-prefixed helpers);
* the IMAP session is a record of the outcomes the remote store can produce
  (connection/login/select errors, the delivered messages of the two fetch
  passes, and the terminal error of each fetch stream); the functions
  `fetchMatchingUIDs`, `fetchBodies` and `fetchInvoices` fold over those
  delivered messages exactly as the Go loops consume their channels;
* the goquery document is a tree (`HTree`/`HForest`, a mutual inductive so
  that all traversals are structural and kernel-computable); the selector
  operations used by `cleanHTML` and `extractOrderNumber` are embedded as
  tree traversals (`removeAllC`, `rfpF`, `rcF`, `boldF`, `iiF`, `allElemsF`);
  parsing and serialisation are identified with the tree itself, a parse
  failure being the `Except.error` case of the function inputs;
* the per-image network fetch of `embedImage` is a parameter
  `net : String → Option (String × String)` giving, for a URL, the
  `Content-Type` header and the base64-encoded payload of a successful
  download, or `none` for a failed one.
-/

/-! ### Go string helpers -/

/-- `strings.ToLower` (ASCII case folding, the only case the code exercises). -/
def goToLower (s : String) : String := ⟨s.data.map Char.toLower⟩

/-- Auxiliary scan for `goStrContains`. -/
def goStrContainsAux : List Char → List Char → Bool
  | [], sub => sub.isEmpty
  | s@(_ :: rest), sub => sub.isPrefixOf s || goStrContainsAux rest sub

/-- `strings.Contains s sub`. -/
def goStrContains (s sub : String) : Bool := goStrContainsAux s.data sub.data

/-- `unicode.IsSpace` on the characters Go trims (ASCII whitespace, NEL, NBSP). -/
def isGoSpace (c : Char) : Bool :=
  c == ' ' || c == '\t' || c == '\n' || c == '\x0b' || c == '\x0c' || c == '\r' ||
  c.val == 0x85 || c.val == 0xA0

/-- Trim `isGoSpace` characters from both ends of a character list. -/
def trimChars (l : List Char) : List Char :=
  ((l.dropWhile isGoSpace).reverse.dropWhile isGoSpace).reverse

/-- `strings.TrimSpace`. -/
def goTrimSpace (s : String) : String := ⟨trimChars s.data⟩

/-- `strings.HasPrefix`. -/
def goStartsWith (s pre : String) : Bool := pre.data.isPrefixOf s.data

/-- `strings.TrimPrefix`. -/
def goTrimPrefix (s pre : String) : String :=
  if pre.data.isPrefixOf s.data then ⟨s.data.drop pre.data.length⟩ else s

/-- `fmt.Sprintf "%02d"` for a natural number. -/
def pad2 (n : Nat) : String := if n < 10 then "0" ++ Nat.repr n else Nat.repr n

/-- `fmt.Sprintf "%04d"` for a natural number. -/
def pad4 (n : Nat) : String :=
  if n < 10 then "000" ++ Nat.repr n
  else if n < 100 then "00" ++ Nat.repr n
  else if n < 1000 then "0" ++ Nat.repr n
  else Nat.repr n

/-! ### Data model (`Config`, IMAP envelope, messages) -/

/-- A calendar instant at the granularity the code compares:
`time.Time.Year()` and `time.Time.Month()`. -/
structure Date where
  year : Nat
  month : Nat
  deriving DecidableEq

/-- `imap.Address`; only the `HostName` field is read by the code. -/
structure Address where
  hostName : String
  deriving DecidableEq

/-- `imap.Envelope`; only the fields read by the code. -/
structure Envelope where
  subject : String
  date : Date
  fromAddrs : List Address
  deriving DecidableEq

/-- The configuration fields read by the embedded functions
(`cfg.Filter.Count`, `cfg.Filter.Subject`, `cfg.Filter.From`). -/
structure Config where
  filterCount : Nat
  filterSubject : String
  filterFrom : String
  deriving DecidableEq

/-- `matchesFilter` (src/main.go:492-507).  `time.Now()` is passed in
explicitly as `now`. -/
def matchesFilter (env : Envelope) (cfg : Config) (now : Date) : Bool :=
  if env.date.year != now.year || env.date.month != now.month then false
  else if env.subject != cfg.filterSubject then false
  else env.fromAddrs.any fun addr =>
    goStrContains (goToLower addr.hostName) (goToLower cfg.filterFrom)

/-! ### Mailbox scanner (two-pass fetch) -/

/-- A message as delivered on the pass-1 envelope channel:
`msg.Envelope` may be absent (`nil`), `msg.Uid` is the identifier. -/
structure ImapMessage where
  envelope : Option Envelope
  uid : Nat
  deriving DecidableEq

/-- The pass-1 match test: `msg.Envelope != nil && matchesFilter(msg.Envelope, cfg)`. -/
def matchesMsg (cfg : Config) (now : Date) (msg : ImapMessage) : Bool :=
  match msg.envelope with
  | some env => matchesFilter env cfg now
  | none => false

/-- `fetchMatchingUIDs` (src/main.go:587-604): fold over the envelope channel,
appending the UID of every matching message.  The terminal error of the
fetch, if any, is only logged as a warning by the Go code (line 601) and has
no effect on the returned slice, so it does not appear here. -/
def fetchMatchingUIDs (msgs : List ImapMessage) (cfg : Config) (now : Date) : List Nat :=
  msgs.foldl (fun uids msg => if matchesMsg cfg now msg then uids ++ [msg.uid] else uids) []

/-- The sequence-range computation of `fetchInvoices` (src/main.go:563-572):
`from := 1; if Count > 0 && total > Count { from = total - Count + 1 }`,
the range being `from..total`. -/
def seqRange (total : Nat) (count : Nat) : Nat × Nat :=
  let fro := if 0 < count then (if count < total then total - count + 1 else 1) else 1
  (fro, total)

/-- The header of a MIME part, as classified by `go-message`:
an inline part with its `Content-Type`, or an attachment part. -/
inductive PartHeader where
  | inlinePart (contentType : String)
  | attachmentPart
  deriving DecidableEq

instance {ε α : Type} [DecidableEq ε] [DecidableEq α] : DecidableEq (Except ε α)
  | .ok a, .ok b =>
      if h : a = b then .isTrue (by rw [h]) else .isFalse (by simp [h])
  | .error a, .error b =>
      if h : a = b then .isTrue (by rw [h]) else .isFalse (by simp [h])
  | .ok _, .error _ => .isFalse (by simp)
  | .error _, .ok _ => .isFalse (by simp)

/-- A MIME part: its header and the outcome of reading its (decoded) body. -/
structure MailPart where
  header : PartHeader
  body : Except String String
  deriving DecidableEq

/-- A raw message body as consumed by `extractHTMLBody`:
the outcome of `mail.CreateReader` (`createErr`), the parts the reader
yields, and the terminal outcome of the part stream (`none` = `io.EOF`,
`some e` = a mid-stream `NextPart` error). -/
structure RawBody where
  createErr : Option String
  parts : List MailPart
  streamErr : Option String
  deriving DecidableEq

/-- The errors `extractHTMLBody` can produce, one per `fmt.Errorf` site:
"creating mail reader: %w", "reading mail part: %w",
"reading HTML body: %w", "no text/html part found". -/
inductive MailError where
  | parseError (e : String)
  | partError (e : String)
  | readError (e : String)
  | notFound
  deriving DecidableEq

/-- Whether a part is an inline part declared `text/html`. -/
def isHTMLPart (p : MailPart) : Bool :=
  match p.header with
  | .inlinePart ct => ct == "text/html"
  | .attachmentPart => false

/-- The `NextPart` loop of `extractHTMLBody`. -/
def scanParts : List MailPart → Option String → Except MailError String
  | [], some e => .error (.partError e)
  | [], none => .error .notFound
  | p :: rest, se =>
    match p.header with
    | .inlinePart ct =>
        if ct == "text/html" then
          match p.body with
          | .ok b => .ok b
          | .error e => .error (.readError e)
        else scanParts rest se
    | .attachmentPart => scanParts rest se

/-- `extractHTMLBody` (src/main.go:510-534). -/
def extractHTMLBody (r : RawBody) : Except MailError String :=
  match r.createErr with
  | some e => .error (.parseError e)
  | none => scanParts r.parts r.streamErr

/-- A matched email as returned by the scanner (src/main.go:452-457). -/
structure InvoiceEmail where
  subject : String
  date : Date
  htmlBody : String
  deriving DecidableEq

/-- A message as delivered on the pass-2 body channel: its UID, envelope,
and the result of `msg.GetBody(section)` (`none` = `nil` reader). -/
structure FetchedMsg where
  uid : Nat
  envelope : Envelope
  body : Option RawBody
  deriving DecidableEq

/-- `fetchBodies` (src/main.go:607-637): fold over the body channel, skipping
messages with no body or no extractable HTML part (warnings), then fail the
whole pass if the fetch itself ended in an error. -/
def fetchBodies (msgs : List FetchedMsg) (fetchErr : Option String) :
    Except String (List InvoiceEmail) :=
  let invoices := msgs.foldl
    (fun acc msg =>
      match msg.body with
      | none => acc
      | some r =>
        match extractHTMLBody r with
        | .error _ => acc
        | .ok htmlBody =>
            acc ++ [{ subject := msg.envelope.subject, date := msg.envelope.date,
                      htmlBody := htmlBody }]) []
  match fetchErr with
  | some e => .error ("fetching bodies: " ++ e)
  | none => .ok invoices

/-- One scan session with the remote store: the outcome of each connection
step and what each of the two fetch passes delivers.  `pass1Err` is the
terminal error of the envelope fetch; the Go code only logs it
(src/main.go:600-602), so no embedded function reads it. -/
structure StoreSession where
  dialErr : Option String
  loginErr : Option String
  selectErr : Option String
  totalMessages : Nat
  pass1Msgs : List ImapMessage
  pass1Err : Option String
  pass2Msgs : List FetchedMsg
  pass2Err : Option String
  deriving DecidableEq

/-- `fetchInvoices` (src/main.go:539-584).  The sequence range sent to the
server is `seqRange sess.totalMessages cfg.filterCount`; what the server
streams back in each pass is part of the session record. -/
def fetchInvoices (sess : StoreSession) (cfg : Config) (now : Date) :
    Except String (List InvoiceEmail) :=
  match sess.dialErr with
  | some e => .error ("connecting to IMAP server: " ++ e)
  | none =>
  match sess.loginErr with
  | some e => .error ("IMAP login: " ++ e)
  | none =>
  match sess.selectErr with
  | some e => .error ("selecting INBOX: " ++ e)
  | none =>
  if sess.totalMessages = 0 then .ok []
  else
    let matchUIDs := fetchMatchingUIDs sess.pass1Msgs cfg now
    if matchUIDs.length = 0 then .ok []
    else fetchBodies sess.pass2Msgs sess.pass2Err

/-! ### The goquery document tree -/

mutual
/-- A node of the parsed HTML document: a text node or an element with its
tag, attribute list and children. -/
inductive HTree where
  | text (s : String)
  | elem (tag : String) (attrs : List (String × String)) (children : HForest)
  deriving DecidableEq
/-- A sequence of sibling nodes (a mutual inductive rather than `List HTree`
so every traversal below is structural and kernel-computable). -/
inductive HForest where
  | nil
  | cons (h : HTree) (t : HForest)
  deriving DecidableEq
end

/-- `goquery.Selection.Attr`: first attribute with the given key. -/
def getAttr : List (String × String) → String → Option String
  | [], _ => none
  | (k', v) :: rest, k => if k' == k then some v else getAttr rest k

/-- `goquery.Selection.SetAttr`: replace the value of an existing attribute
in place, or append a new one. -/
def setAttr (k v : String) : List (String × String) → List (String × String)
  | [] => [(k, v)]
  | (k', v') :: rest => if k' == k then (k', v) :: rest else (k', v') :: setAttr k v rest

/-- Split a character list on whitespace (for the `class` attribute). -/
def splitWSAux : List Char → List Char → List (List Char)
  | [], cur => if cur.isEmpty then [] else [cur.reverse]
  | c :: rest, cur =>
      if isGoSpace c then
        (if cur.isEmpty then splitWSAux rest [] else cur.reverse :: splitWSAux rest [])
      else splitWSAux rest (c :: cur)

/-- CSS class selector test: the `class` attribute, split on whitespace,
contains the given class. -/
def hasClass (attrs : List (String × String)) (cls : String) : Bool :=
  match getAttr attrs "class" with
  | none => false
  | some v => (splitWSAux v.data []).contains cls.data

/-- CSS id selector test for `#footer_section`. -/
def isFooterId (attrs : List (String × String)) : Bool :=
  getAttr attrs "id" == some "footer_section"

/-- `goquery.Selection.Text` of a forest: concatenation of all text nodes. -/
def textF : HForest → String
  | .nil => ""
  | .cons (.text s) t => s ++ textF t
  | .cons (.elem _ _ cs) t => textF cs ++ textF t

/-- `goquery.Selection.Text` of a single element node. -/
def treeText : HTree → String
  | .text s => s
  | .elem _ _ cs => textF cs

/-- `doc.Find("*")`: all element nodes in document (depth-first preorder) order. -/
def allElemsF : HForest → List HTree
  | .nil => []
  | .cons (.text _) t => allElemsF t
  | .cons (.elem tag attrs cs) t => .elem tag attrs cs :: (allElemsF cs ++ allElemsF t)

/-! ### `cleanHTML` pipeline -/

/-- `embedImage` (src/main.go:640-655) given the network outcome `net`:
on success, build a data URI from the response `Content-Type` (defaulting to
`image/png` when absent) and the base64-encoded payload. -/
def embedImage (net : String → Option (String × String)) (imgURL : String) :
    Option String :=
  match net imgURL with
  | none => none
  | some (mime, b64) =>
      let m := if mime == "" then "image/png" else mime
      some ("data:" ++ m ++ ";base64," ++ b64)

/-- The per-element body of `doc.Find("img").Each` in `cleanHTML`: if the
element is an `img` whose `src` starts with "http" and the fetch succeeds,
replace `src` with the data URI; otherwise leave the attributes unchanged. -/
def inlineImgAttrs (net : String → Option (String × String)) (tag : String)
    (attrs : List (String × String)) : List (String × String) :=
  if tag == "img" then
    match getAttr attrs "src" with
    | some src =>
        if goStartsWith src "http" then
          match embedImage net src with
          | some dataURI => setAttr "src" dataURI attrs
          | none => attrs
        else attrs
    | none => attrs
  else attrs

/-- Image-inlining pass over the whole document. -/
def iiF (net : String → Option (String × String)) : HForest → HForest
  | .nil => .nil
  | .cons (.text s) t => .cons (.text s) (iiF net t)
  | .cons (.elem tag attrs cs) t =>
      .cons (.elem tag (inlineImgAttrs net tag attrs) (iiF net cs)) (iiF net t)

/-- `doc.Find(sel).Remove()` for a selector that tests one element's tag and
attributes: remove every matching element (with its subtree). -/
def removeAllC (p : String → List (String × String) → Bool) : HForest → HForest
  | .nil => .nil
  | .cons (.text s) t => .cons (.text s) (removeAllC p t)
  | .cons (.elem tag attrs cs) t =>
      if p tag attrs then removeAllC p t
      else .cons (.elem tag attrs (removeAllC p cs)) (removeAllC p t)

/-- Selector `.action-button-cell`. -/
def isABC (_ : String) (attrs : List (String × String)) : Bool :=
  hasClass attrs "action-button-cell"

/-- Selector `.inline-link-group`. -/
def isILG (_ : String) (attrs : List (String × String)) : Bool :=
  hasClass attrs "inline-link-group"

/-- `doc.Find("#footer_section > p").First().Remove()`: remove the first
(in document order) `p` element that is a direct child of an element with id
`footer_section`; the Bool reports whether a removal happened (used to stop). -/
def rfpF (parentFooter : Bool) : HForest → HForest × Bool
  | .nil => (.nil, false)
  | .cons (.text s) t =>
      let r := rfpF parentFooter t
      (.cons (.text s) r.1, r.2)
  | .cons (.elem tag attrs cs) t =>
      if parentFooter && tag == "p" then (t, true)
      else
        let rc := rfpF (isFooterId attrs) cs
        if rc.2 then (.cons (.elem tag attrs rc.1) t, true)
        else
          let rt := rfpF parentFooter t
          (.cons (.elem tag attrs rc.1) rt.1, rt.2)

/-- The first-footer-paragraph removal step of `cleanHTML`. -/
def removeFirstFooterP (f : HForest) : HForest := (rfpF false f).1

/-- `doc.Find("#footer_section > .custom-1sstyyn").Remove()`: remove every
element with class `custom-1sstyyn` that is a direct child of an element
with id `footer_section`. -/
def rcF (parentFooter : Bool) : HForest → HForest
  | .nil => .nil
  | .cons (.text s) t => .cons (.text s) (rcF parentFooter t)
  | .cons (.elem tag attrs cs) t =>
      if parentFooter && hasClass attrs "custom-1sstyyn" then rcF parentFooter t
      else .cons (.elem tag attrs (rcF (isFooterId attrs) cs)) (rcF parentFooter t)

/-- Whether a `p` element's text contains the tax-identifier label. -/
def uidMatch (tag : String) (cs : HForest) : Bool :=
  tag == "p" && goStrContains (textF cs) "UID-Nr"

/-- `doc.Find(".footer-copy p").Each(...)`: every `p` element that descends
from an element with class `footer-copy` and whose text contains "UID-Nr"
gets `style` set to `font-weight:600`. -/
def boldF (inFC : Bool) : HForest → HForest
  | .nil => .nil
  | .cons (.text s) t => .cons (.text s) (boldF inFC t)
  | .cons (.elem tag attrs cs) t =>
      let attrs' := if inFC && uidMatch tag cs then setAttr "style" "font-weight:600" attrs
                    else attrs
      .cons (.elem tag attrs' (boldF (inFC || hasClass attrs "footer-copy") cs)) (boldF inFC t)

/-- The document transformation of `cleanHTML` (src/main.go:659-696), on the
parsed tree, in the order the Go code applies the steps. -/
def cleanHTMLDoc (net : String → Option (String × String)) (doc : HForest) : HForest :=
  removeAllC isILG (boldF false (rcF false (removeFirstFooterP (removeAllC isABC (iiF net doc)))))

/-- `cleanHTML` with the parse step: a parse failure becomes the
`"parsing HTML: %w"` error; serialisation is identified with the tree. -/
def cleanHTML (net : String → Option (String × String))
    (input : Except String HForest) : Except String HForest :=
  match input with
  | .error e => .error ("parsing HTML: " ++ e)
  | .ok doc => .ok (cleanHTMLDoc net doc)

/-! ### `extractOrderNumber` -/

/-- Whether an element's trimmed text begins with the order-number label. -/
def labelMatches (n : HTree) : Bool :=
  goStartsWith (goTrimSpace (treeText n)) "Bestellnummer:"

/-- The truncation step: `strings.IndexAny(orderNum, "\n\r\t")`, and if found,
`TrimSpace(orderNum[:idx])`. -/
def truncAtBreak (s : String) : String :=
  match s.data.findIdx? (fun c => c == '\n' || c == '\r' || c == '\t') with
  | some i => goTrimSpace ⟨s.data.take i⟩
  | none => s

/-- The value computed from a matching element's trimmed text:
`TrimSpace(TrimPrefix(text, "Bestellnummer:"))`, then the truncation step. -/
def orderFromText (text : String) : String :=
  truncAtBreak (goTrimSpace (goTrimPrefix text "Bestellnummer:"))

/-- The `EachWithBreak` loop of `extractOrderNumber`: stop at the first
element whose trimmed text begins with the label. -/
def extractLoop : List HTree → String
  | [] => ""
  | n :: rest =>
      if labelMatches n then orderFromText (goTrimSpace (treeText n)) else extractLoop rest

/-- `extractOrderNumber` (src/main.go:701-720) on a parsed document. -/
def extractOrderNumberDoc (doc : HForest) : String := extractLoop (allElemsF doc)

/-- `extractOrderNumber` including the parse step: a parse failure yields
the empty string (src/main.go:703-705). -/
def extractOrderNumber (parsed : Except String HForest) : String :=
  match parsed with
  | .error _ => ""
  | .ok doc => extractOrderNumberDoc doc

/-! ### Naming strategy -/

/-- The character allow-list of `sanitizeFilename`'s regular expression
`[^a-zA-Z0-9äöüÄÖÜß\-_ ]+`. -/
def isAllowed (c : Char) : Bool :=
  ('a' ≤ c && c ≤ 'z') || ('A' ≤ c && c ≤ 'Z') || ('0' ≤ c && c ≤ '9') ||
  c == 'ä' || c == 'ö' || c == 'ü' || c == 'Ä' || c == 'Ö' || c == 'Ü' || c == 'ß' ||
  c == '-' || c == '_' || c == ' '

/-- `regexp.ReplaceAllString` with the pattern above: each maximal run of
disallowed characters (the `+` quantifier) becomes a single underscore.
The Bool records whether the previous character was part of such a run. -/
def replaceRunsAux : Bool → List Char → List Char
  | _, [] => []
  | prevBad, c :: cs =>
      if isAllowed c then c :: replaceRunsAux false cs
      else if prevBad then replaceRunsAux true cs
      else '_' :: replaceRunsAux true cs

/-- `sanitizeFilename` (src/main.go:755-761). -/
def sanitizeFilename (s : String) : String :=
  let replaced : String := ⟨replaceRunsAux false s.data⟩
  let trimmed := goTrimSpace replaced
  if trimmed == "" then "invoice" else trimmed

/-- The filename computation of the `main` loop (src/main.go:818-830):
`orderNum` is the result of `extractOrderNumber`, `i` the 0-based loop
index, `total` the number of invoices in the run (`len(invoices)`). -/
def invoiceFilename (orderNum subject : String) (date : Date) (i total : Nat) : String :=
  let filename :=
    if orderNum != "" then
      pad2 date.month ++ "_" ++ pad4 date.year ++ "_Rechnung_Apple_" ++
        sanitizeFilename orderNum
    else
      let f := sanitizeFilename subject
      if 1 < total then f ++ "_" ++ Nat.repr (i + 1) else f
  filename ++ ".pdf"

/-! ### Fixed-point checkers for the `cleanHTML` pipeline -/

/-- Whether every element of the forest satisfies a predicate on its tag and
attributes. -/
def allB (p : String → List (String × String) → Bool) : HForest → Bool
  | .nil => true
  | .cons (.text _) t => allB p t
  | .cons (.elem tag attrs cs) t => p tag attrs && allB p cs && allB p t

/-- The image invariant the inlining pass establishes: any `img` whose `src`
still starts with "http" is one whose fetch fails. -/
def imgInv (net : String → Option (String × String)) (tag : String)
    (attrs : List (String × String)) : Bool :=
  if tag == "img" then
    match getAttr attrs "src" with
    | some src => if goStartsWith src "http" then (embedImage net src).isNone else true
    | none => true
  else true

/-- Whether some element matches `#footer_section > p` (given whether the
current parent has id `footer_section`). -/
def hasFooterP (parentFooter : Bool) : HForest → Bool
  | .nil => false
  | .cons (.text _) t => hasFooterP parentFooter t
  | .cons (.elem tag attrs cs) t =>
      (parentFooter && tag == "p") || hasFooterP (isFooterId attrs) cs ||
        hasFooterP parentFooter t

/-- Whether no element matches `#footer_section > .custom-1sstyyn`. -/
def nccB (parentFooter : Bool) : HForest → Bool
  | .nil => true
  | .cons (.text _) t => nccB parentFooter t
  | .cons (.elem _ attrs cs) t =>
      !(parentFooter && hasClass attrs "custom-1sstyyn") &&
        nccB (isFooterId attrs) cs && nccB parentFooter t

/-- Whether every `.footer-copy p` element containing "UID-Nr" already
carries the bold style, so restyling it changes nothing. -/
def bFixB (inFC : Bool) : HForest → Bool
  | .nil => true
  | .cons (.text _) t => bFixB inFC t
  | .cons (.elem tag attrs cs) t =>
      (if inFC && uidMatch tag cs then
          decide (setAttr "style" "font-weight:600" attrs = attrs)
        else true) &&
        bFixB (inFC || hasClass attrs "footer-copy") cs && bFixB inFC t

/-! ### Concrete inputs for witnesses and counterexamples -/

/-- A configuration whose filter a concrete envelope below matches. -/
def dupCfg : Config := { filterCount := 10, filterSubject := "s", filterFrom := "a" }

/-- The evaluation instant for the concrete scan examples. -/
def dupNow : Date := ⟨2024, 5⟩

/-- A concrete envelope matching `dupCfg` at `dupNow`. -/
def dupEnv : Envelope := { subject := "s", date := ⟨2024, 5⟩, fromAddrs := [⟨"a"⟩] }

/-- A matching pass-1 message with UID 7, which the store may deliver twice. -/
def dupMsg : ImapMessage := { envelope := some dupEnv, uid := 7 }

/-- A raw body containing exactly one `text/html` part. -/
def okBody : RawBody :=
  { createErr := none,
    parts := [{ header := .inlinePart "text/html", body := .ok "<b>x</b>" }],
    streamErr := none }

/-- A session whose connection steps succeed, whose pass-1 envelope fetch
ends in a protocol error ("boom") after delivering one matching message, and
whose pass-2 body fetch succeeds. -/
def warnSess : StoreSession :=
  { dialErr := none, loginErr := none, selectErr := none, totalMessages := 1,
    pass1Msgs := [dupMsg], pass1Err := some "boom",
    pass2Msgs := [{ uid := 7, envelope := dupEnv, body := some okBody }],
    pass2Err := none }

/-- A session over an empty mailbox. -/
def emptySess : StoreSession :=
  { dialErr := none, loginErr := none, selectErr := none, totalMessages := 0,
    pass1Msgs := [], pass1Err := none, pass2Msgs := [], pass2Err := none }

/-- The network outcome in which every image fetch fails. -/
def noNet : String → Option (String × String) := fun _ => none

/-- A document whose footer section has two direct paragraph children. -/
def twoPFooter : HForest :=
  .cons (.elem "div" [("id", "footer_section")]
    (.cons (.elem "p" .nil (.cons (.text "a") .nil))
      (.cons (.elem "p" .nil (.cons (.text "b") .nil)) .nil))) .nil

/-- A document on which `cleanHTML` is a fixed point from the start. -/
def plainDiv : HForest := .cons (.elem "div" [] (.cons (.text "hello") .nil)) .nil

/-- The parse tree of the scenario-D HTML
`Bestellnummer: 123456\nmore text` (as the HTML parser wraps it:
`html(head, body(text))`). -/
def scenarioD : HForest :=
  .cons (.elem "html" []
    (.cons (.elem "head" [] .nil)
      (.cons (.elem "body" [] (.cons (.text "Bestellnummer: 123456\nmore text") .nil))
        .nil))) .nil

/-! ## Theorems -/

/-- C1: `matchesFilter` returns true iff the subject is exactly (and
case-sensitively) equal to the configured filter subject, some sender
address host name contains the configured sender domain as a
case-insensitive substring (so an empty sender list never matches), and the
envelope date has the same year and month as the evaluation instant. -/
theorem c1_matches_filter (env : Envelope) (cfg : Config) (now : Date) :
    matchesFilter env cfg now = true ↔
      (env.subject = cfg.filterSubject
        ∧ (∃ a ∈ env.fromAddrs,
            goStrContains (goToLower a.hostName) (goToLower cfg.filterFrom) = true)
        ∧ env.date.year = now.year ∧ env.date.month = now.month) := by
  unfold matchesFilter
  by_cases hy : env.date.year = now.year
  · by_cases hm : env.date.month = now.month
    · by_cases hs : env.subject = cfg.filterSubject
      · simp [hy, hm, hs, List.any_eq_true]
      · simp [hy, hm, hs]
    · simp [hm]
  · simp [hy]

/-- C2: for scan-window-size `n > 0` the pass-1 window is the last
`min n total` positions, i.e. `total - min n total + 1 .. total`; for
`n = 0` it is the whole mailbox `1 .. total`; and on an empty mailbox the
scan returns an empty result without starting pass 1 (the result is `ok []`
whatever the session's pass-1 and pass-2 contents are). -/
theorem c2_scan_window (total n : Nat) :
    (0 < n → seqRange total n = (total - min n total + 1, total))
    ∧ seqRange total 0 = (1, total)
    ∧ (0 < total → 0 < n →
        (seqRange total n).2 - (seqRange total n).1 + 1 = min n total)
    ∧ (0 < total → (seqRange total 0).2 - (seqRange total 0).1 + 1 = total)
    ∧ (∀ (sess : StoreSession) (cfg : Config) (now : Date),
        sess.dialErr = none → sess.loginErr = none → sess.selectErr = none →
        sess.totalMessages = 0 → fetchInvoices sess cfg now = Except.ok []) := by
  refine ⟨?_, ?_, ?_, ?_, ?_⟩
  · intro hn
    unfold seqRange
    split
    · split
      · simp only [Prod.mk.injEq, and_true]
        omega
      · simp only [Prod.mk.injEq, and_true]
        omega
    · omega
  · unfold seqRange
    simp
  · intro ht hn
    unfold seqRange
    split
    · split
      · simp only
        omega
      · simp only
        omega
    · omega
  · intro ht
    unfold seqRange
    simp
    omega
  · intro sess cfg now h1 h2 h3 h4
    unfold fetchInvoices
    rw [h1, h2, h3]
    simp [h4]

/-- Auxiliary: the pass-1 fold appends, after the accumulator, the UIDs of
the matching messages in delivery order. -/
theorem fetchMatchingUIDs_foldl (cfg : Config) (now : Date) :
    ∀ (msgs : List ImapMessage) (acc : List Nat),
      msgs.foldl (fun uids msg => if matchesMsg cfg now msg then uids ++ [msg.uid] else uids) acc
        = acc ++ (msgs.filter (matchesMsg cfg now)).map ImapMessage.uid
  | [], acc => by simp
  | msg :: rest, acc => by
      by_cases h : matchesMsg cfg now msg
      · simp [List.foldl_cons, List.filter_cons, h,
          fetchMatchingUIDs_foldl cfg now rest (acc ++ [msg.uid])]
      · simp [List.foldl_cons, List.filter_cons, h,
          fetchMatchingUIDs_foldl cfg now rest acc]

/-- C3 (amended): the CandidateSet lists the UID of every delivered matching
message in delivery order, one entry per delivery; in particular, when the
store delivers pairwise distinct identifiers the set has no duplicates, but
a duplicated delivery is recorded twice. -/
theorem c3_candidate_set_amended (msgs : List ImapMessage) (cfg : Config) (now : Date) :
    fetchMatchingUIDs msgs cfg now = (msgs.filter (matchesMsg cfg now)).map ImapMessage.uid
    ∧ ((msgs.map ImapMessage.uid).Nodup → (fetchMatchingUIDs msgs cfg now).Nodup) := by
  have h : fetchMatchingUIDs msgs cfg now
      = (msgs.filter (matchesMsg cfg now)).map ImapMessage.uid := by
    simpa [fetchMatchingUIDs] using fetchMatchingUIDs_foldl cfg now msgs []
  refine ⟨h, fun hnd => ?_⟩
  rw [h]
  exact List.Nodup.sublist ((List.filter_sublist msgs).map ImapMessage.uid) hnd

/-- C3 (counterexample): if the store delivers the same matching message
(UID 7) twice, the CandidateSet is `[7, 7]`, so it does not contain each
identifier at most once. -/
theorem c3_candidate_set_counterexample :
    fetchMatchingUIDs [dupMsg, dupMsg] dupCfg dupNow = [7, 7] ∧
    ¬ (fetchMatchingUIDs [dupMsg, dupMsg] dupCfg dupNow).Nodup :=
  ⟨by decide, by decide⟩

/-- C3 (witness): on a single delivery of the matching message the
CandidateSet is duplicate-free. -/
theorem c3_candidate_set_witness :
    ([dupMsg].map ImapMessage.uid).Nodup ∧ (fetchMatchingUIDs [dupMsg] dupCfg dupNow).Nodup :=
  ⟨by decide, (c3_candidate_set_amended [dupMsg] dupCfg dupNow).2 (by decide)⟩

/-- C4 (amended): connection, login and mailbox-selection failures, and a
protocol-level fetch failure in pass 2, abort the scan with the
corresponding fatal error; a protocol-level fetch failure in pass 1 is only
logged as a warning — the scan result does not depend on it at all. -/
theorem c4_transport_errors_amended (sess : StoreSession) (cfg : Config) (now : Date) :
    (∀ e, sess.dialErr = some e →
      fetchInvoices sess cfg now = Except.error ("connecting to IMAP server: " ++ e))
    ∧ (∀ e, sess.dialErr = none → sess.loginErr = some e →
      fetchInvoices sess cfg now = Except.error ("IMAP login: " ++ e))
    ∧ (∀ e, sess.dialErr = none → sess.loginErr = none → sess.selectErr = some e →
      fetchInvoices sess cfg now = Except.error ("selecting INBOX: " ++ e))
    ∧ (∀ e, sess.dialErr = none → sess.loginErr = none → sess.selectErr = none →
      sess.totalMessages ≠ 0 → fetchMatchingUIDs sess.pass1Msgs cfg now ≠ [] →
      sess.pass2Err = some e →
      fetchInvoices sess cfg now = Except.error ("fetching bodies: " ++ e))
    ∧ (∀ p, fetchInvoices { sess with pass1Err := p } cfg now
        = fetchInvoices { sess with pass1Err := none } cfg now) := by
  refine ⟨?_, ?_, ?_, ?_, ?_⟩
  · intro e h1
    unfold fetchInvoices
    rw [h1]
  · intro e h1 h2
    unfold fetchInvoices
    rw [h1, h2]
  · intro e h1 h2 h3
    unfold fetchInvoices
    rw [h1, h2, h3]
  · intro e h1 h2 h3 h4 h5 h6
    unfold fetchInvoices
    rw [h1, h2, h3]
    simp only [h4, if_false, List.length_eq_zero, h5]
    simp [fetchBodies, h6]
  · intro p
    rfl

/-- C4 (counterexample): a session whose pass-1 envelope fetch fails with a
protocol error ("boom") after delivering one matching message still returns
`ok` with the fetched invoice — the pass-1 failure is not propagated as a
fatal error. -/
theorem c4_pass1_error_counterexample :
    warnSess.pass1Err = some "boom" ∧
    fetchInvoices warnSess dupCfg dupNow =
      Except.ok [{ subject := "s", date := ⟨2024, 5⟩, htmlBody := "<b>x</b>" }] :=
  ⟨rfl, by decide⟩

/-- C4 (witness): a connection failure and a pass-2 fetch failure each
propagate as the corresponding fatal error. -/
theorem c4_transport_errors_witness :
    fetchInvoices { emptySess with dialErr := some "x" } dupCfg dupNow
      = Except.error ("connecting to IMAP server: " ++ "x")
    ∧ fetchInvoices { warnSess with pass2Err := some "io" } dupCfg dupNow
      = Except.error ("fetching bodies: " ++ "io") :=
  ⟨(c4_transport_errors_amended { emptySess with dialErr := some "x" } dupCfg dupNow).1 "x" rfl,
   (c4_transport_errors_amended { warnSess with pass2Err := some "io" } dupCfg dupNow).2.2.2.1
     "io" rfl rfl rfl (by decide) (by decide) rfl⟩

/-- Auxiliary: if the part list contains an inline `text/html` part, the
scan returns the successfully read body of the first such part. -/
theorem scanParts_find_ok (se : Option String) :
    ∀ (parts : List MailPart) (p : MailPart) (b : String),
      parts.find? isHTMLPart = some p → p.body = Except.ok b →
      scanParts parts se = Except.ok b := by
  intro parts
  induction parts with
  | nil => intro p b hf _; simp at hf
  | cons q rest ih =>
      intro p b hf hb
      by_cases hq : isHTMLPart q = true
      · rw [List.find?_cons_of_pos _ hq] at hf
        injection hf with hqp
        subst hqp
        cases hhdr : q.header with
        | inlinePart ct =>
            have hct : (ct == "text/html") = true := by
              have h := hq
              unfold isHTMLPart at h
              rw [hhdr] at h
              exact h
            simp [scanParts, hhdr, hct, hb]
        | attachmentPart =>
            exfalso
            unfold isHTMLPart at hq
            rw [hhdr] at hq
            simp at hq
      · rw [List.find?_cons_of_neg _ hq] at hf
        cases hhdr : q.header with
        | inlinePart ct =>
            have hct : (ct == "text/html") = false := by
              have h := hq
              unfold isHTMLPart at h
              rw [hhdr] at h
              simpa using h
            simpa [scanParts, hhdr, hct] using ih p b hf hb
        | attachmentPart =>
            simpa [scanParts, hhdr] using ih p b hf hb

/-- Auxiliary: the scan ends in `notFound` exactly when the part stream ends
in `io.EOF` and no inline `text/html` part occurs. -/
theorem scanParts_notFound_iff :
    ∀ (parts : List MailPart) (se : Option String),
      scanParts parts se = Except.error MailError.notFound ↔
        (se = none ∧ parts.find? isHTMLPart = none) := by
  intro parts
  induction parts with
  | nil =>
      intro se
      cases se with
      | none => simp [scanParts]
      | some e => simp [scanParts]
  | cons q rest ih =>
      intro se
      cases hhdr : q.header with
      | inlinePart ct =>
          by_cases hct : (ct == "text/html") = true
          · have hq : isHTMLPart q = true := by
              unfold isHTMLPart
              rw [hhdr]
              exact hct
            rw [List.find?_cons_of_pos _ hq]
            cases hbody : q.body with
            | ok b => simp [scanParts, hhdr, hct, hbody]
            | error e => simp [scanParts, hhdr, hct, hbody]
          · have hq : ¬ isHTMLPart q = true := by
              unfold isHTMLPart
              rw [hhdr]
              exact hct
            rw [List.find?_cons_of_neg _ hq]
            have hct' : (ct == "text/html") = false := by simpa using hct
            simp only [scanParts, hhdr, hct', if_false]
            exact ih se
      | attachmentPart =>
          have hq : ¬ isHTMLPart q = true := by
            unfold isHTMLPart
            rw [hhdr]
            simp
          rw [List.find?_cons_of_neg _ hq]
          simp only [scanParts, hhdr]
          exact ih se

/-- C5: when the reader is created successfully, `extractHTMLBody` returns
the decoded content of the first part declared `text/html` (stopping there);
and it fails with `notFound` ("no text/html part found") exactly when the
body parses — reader creation succeeds and the part stream ends in `io.EOF`
— and no `text/html` part exists. -/
theorem c5_extract_html_body (r : RawBody) :
    (r.createErr = none → ∀ (p : MailPart) (b : String),
      r.parts.find? isHTMLPart = some p → p.body = Except.ok b →
      extractHTMLBody r = Except.ok b)
    ∧ (extractHTMLBody r = Except.error MailError.notFound ↔
        (r.createErr = none ∧ r.streamErr = none ∧ r.parts.find? isHTMLPart = none)) := by
  constructor
  · intro hc p b hf hb
    unfold extractHTMLBody
    rw [hc]
    exact scanParts_find_ok r.streamErr r.parts p b hf hb
  · unfold extractHTMLBody
    cases hc : r.createErr with
    | some e => simp
    | none => simp [scanParts_notFound_iff]

/-- C5 (witness): on a concrete one-part body the first `text/html` part's
content is returned. -/
theorem c5_extract_html_body_witness :
    okBody.createErr = none ∧
    extractHTMLBody okBody = Except.ok "<b>x</b>" :=
  ⟨rfl, (c5_extract_html_body okBody).1 rfl
    { header := .inlinePart "text/html", body := .ok "<b>x</b>" } "<b>x</b>" (by decide) rfl⟩

/-- Auxiliary: the `EachWithBreak` loop computes the order value of the
first label-matching element and the empty string when none matches. -/
theorem extractLoop_eq_find :
    ∀ l : List HTree,
      (l.find? labelMatches = none → extractLoop l = "")
      ∧ (∀ n, l.find? labelMatches = some n →
          extractLoop l = orderFromText (goTrimSpace (treeText n))) := by
  intro l
  induction l with
  | nil => exact ⟨fun _ => rfl, fun n h => by simp at h⟩
  | cons m rest ih =>
      by_cases hm : labelMatches m = true
      · refine ⟨fun h => ?_, fun n h => ?_⟩
        · rw [List.find?_cons_of_pos _ hm] at h
          simp at h
        · rw [List.find?_cons_of_pos _ hm] at h
          obtain rfl : m = n := by injection h
          simp [extractLoop, hm]
      · refine ⟨fun h => ?_, fun n h => ?_⟩
        · rw [List.find?_cons_of_neg _ hm] at h
          simpa [extractLoop, hm] using (ih).1 h
        · rw [List.find?_cons_of_neg _ hm] at h
          simpa [extractLoop, hm] using (ih).2 n h

/-- C6: `extractOrderNumber` scans all elements in depth-first document
order; for the first element whose trimmed text begins with
"Bestellnummer:" it returns the remainder of that text (prefix dropped,
trimmed, truncated at the first line break or tab, and trimmed again); when
no element matches the result is the empty string, not an error.  On the
scenario-D document (`Bestellnummer: 123456\nmore text`) it returns
"123456". -/
theorem c6_extract_order_number :
    (∀ doc : HForest, (allElemsF doc).find? labelMatches = none →
      extractOrderNumberDoc doc = "")
    ∧ (∀ (doc : HForest) (n : HTree), (allElemsF doc).find? labelMatches = some n →
      extractOrderNumberDoc doc = orderFromText (goTrimSpace (treeText n)))
    ∧ extractOrderNumberDoc scenarioD = "123456" :=
  ⟨fun doc h => (extractLoop_eq_find (allElemsF doc)).1 h,
   fun doc n h => (extractLoop_eq_find (allElemsF doc)).2 n h,
   by decide⟩

/-- C6 (witness): a document with no matching element yields the empty
string. -/
theorem c6_extract_order_number_witness :
    (allElemsF HForest.nil).find? labelMatches = none ∧
    extractOrderNumberDoc HForest.nil = "" :=
  ⟨rfl, c6_extract_order_number.1 HForest.nil rfl⟩

/-- C7: with an order identifier present the filename is the zero-padded
two-digit month, an underscore, the zero-padded four-digit year, the fixed
token "_Rechnung_Apple_", and the sanitized identifier; otherwise it is the
sanitized subject, suffixed with `_<i+1>` exactly when the run holds more
than one document; ".pdf" is appended unconditionally in every case. -/
theorem c7_invoice_filename (orderNum subject : String) (date : Date) (i total : Nat) :
    (orderNum ≠ "" → invoiceFilename orderNum subject date i total
      = pad2 date.month ++ "_" ++ pad4 date.year ++ "_Rechnung_Apple_"
          ++ sanitizeFilename orderNum ++ ".pdf")
    ∧ (orderNum = "" → 1 < total → invoiceFilename orderNum subject date i total
      = sanitizeFilename subject ++ "_" ++ Nat.repr (i + 1) ++ ".pdf")
    ∧ (orderNum = "" → ¬ 1 < total → invoiceFilename orderNum subject date i total
      = sanitizeFilename subject ++ ".pdf")
    ∧ (∃ s, invoiceFilename orderNum subject date i total = s ++ ".pdf") := by
  refine ⟨?_, ?_, ?_, ?_⟩
  · intro h
    simp [invoiceFilename, bne_iff_ne, h]
  · intro h ht
    simp [invoiceFilename, bne_iff_ne, h, ht]
  · intro h ht
    simp [invoiceFilename, bne_iff_ne, h, ht]
  · exact ⟨_, rfl⟩

/-- C7 (witness): both naming branches at concrete inputs. -/
theorem c7_invoice_filename_witness :
    ("A1" : String) ≠ "" ∧
    invoiceFilename "A1" "subj" ⟨2024, 3⟩ 0 1
      = pad2 3 ++ "_" ++ pad4 2024 ++ "_Rechnung_Apple_" ++ sanitizeFilename "A1" ++ ".pdf" ∧
    invoiceFilename "" "subj" ⟨2024, 3⟩ 0 3
      = sanitizeFilename "subj" ++ "_" ++ Nat.repr (0 + 1) ++ ".pdf" :=
  ⟨by decide,
   (c7_invoice_filename "A1" "subj" ⟨2024, 3⟩ 0 1).1 (by decide),
   (c7_invoice_filename "" "subj" ⟨2024, 3⟩ 0 3).2.1 rfl (by decide)⟩

/-- Auxiliary: every character the regex replacement emits is allow-listed
(kept characters by definition, the underscore because it is itself in the
allow-list). -/
theorem replaceRunsAux_allowed :
    ∀ (l : List Char) (b : Bool) (c : Char),
      c ∈ replaceRunsAux b l → isAllowed c = true := by
  intro l
  induction l with
  | nil => intro b c hc; simp [replaceRunsAux] at hc
  | cons d rest ih =>
      intro b c hc
      by_cases hd : isAllowed d = true
      · rw [replaceRunsAux, if_pos hd] at hc
        rcases List.mem_cons.mp hc with rfl | hc
        · exact hd
        · exact ih false c hc
      · rw [replaceRunsAux, if_neg hd] at hc
        cases b with
        | true => exact ih true c (by simpa using hc)
        | false =>
            rcases List.mem_cons.mp (by simpa using hc) with rfl | hc'
            · decide
            · exact ih true c hc'

/-- Auxiliary: trimming only drops characters. -/
theorem mem_trimChars {c : Char} {l : List Char} (h : c ∈ trimChars l) : c ∈ l := by
  unfold trimChars at h
  rw [List.mem_reverse] at h
  have h1 : c ∈ (l.dropWhile isGoSpace).reverse := (List.dropWhile_sublist _).subset h
  rw [List.mem_reverse] at h1
  exact (List.dropWhile_sublist _).subset h1

/-- C8 (amended): `sanitizeFilename` replaces every maximal run of
consecutive characters outside the allow-list with a single underscore,
trims surrounding whitespace, and substitutes "invoice" when the result is
empty (which happens for empty or all-whitespace input, not for arbitrary
all-disallowed input); hence every output character is allow-listed, the
empty subject yields "invoice", and "Invoice #123 (2024)" sanitizes to
"Invoice _123 _2024_". -/
theorem c8_sanitize_amended :
    (∀ (s : String) (c : Char), c ∈ (sanitizeFilename s).data → isAllowed c = true)
    ∧ sanitizeFilename "" = "invoice"
    ∧ sanitizeFilename "Invoice #123 (2024)" = "Invoice _123 _2024_" := by
  refine ⟨?_, by decide, by decide⟩
  intro s c hc
  simp only [sanitizeFilename] at hc
  split at hc
  · have h : ∀ d ∈ "invoice".data, isAllowed d = true := by decide
    exact h c hc
  · exact replaceRunsAux_allowed s.data false c (mem_trimChars hc)

/-- C8 (counterexample): the all-disallowed input "!!" sanitizes to a single
underscore — not to one underscore per character, and not to the default
token "invoice". -/
theorem c8_sanitize_counterexample :
    sanitizeFilename "!!" = "_" ∧ sanitizeFilename "!!" ≠ "invoice"
      ∧ sanitizeFilename "!!" ≠ "__" :=
  ⟨by decide, by decide, by decide⟩

/-- C8 (witness): the underscore emitted for "a!b" is allow-listed. -/
theorem c8_sanitize_witness :
    ('_' ∈ (sanitizeFilename "a!b").data) ∧ isAllowed '_' = true :=
  ⟨by decide, c8_sanitize_amended.1 "a!b" '_' (by decide)⟩

/-- C10: `extractOrderNumber` is total at its public interface: an input
that fails to parse yields the empty string, a parsed document with no
matching element yields the empty string, and neither case is an error —
unlike `cleanHTML`, which surfaces the "parsing HTML" error on the same
unparseable input. -/
theorem c10_extract_total :
    (∀ e, extractOrderNumber (Except.error e) = "")
    ∧ (∀ doc : HForest, (allElemsF doc).find? labelMatches = none →
        extractOrderNumber (Except.ok doc) = "")
    ∧ (∀ (e : String) (net : String → Option (String × String)),
        cleanHTML net (Except.error e) = Except.error ("parsing HTML: " ++ e)) :=
  ⟨fun _ => rfl,
   fun doc h => (extractLoop_eq_find (allElemsF doc)).1 h,
   fun _ _ => rfl⟩

/-- C10 (witness): both empty-string cases at concrete inputs. -/
theorem c10_extract_total_witness :
    extractOrderNumber (Except.error "bad") = "" ∧
    extractOrderNumber (Except.ok HForest.nil) = "" :=
  ⟨c10_extract_total.1 "bad", c10_extract_total.2.1 HForest.nil rfl⟩

/-- Auxiliary: setting one attribute leaves every other attribute unchanged. -/
theorem getAttr_setAttr_ne (k k' v : String) (h : (k' == k) = false) :
    ∀ attrs : List (String × String), getAttr (setAttr k' v attrs) k = getAttr attrs k
  | [] => by simp [setAttr, getAttr, h]
  | (k'', v'') :: rest => by
      by_cases hk : (k'' == k') = true
      · have hke : k'' = k' := by simpa using hk
        subst hke
        simp [setAttr, getAttr, h]
      · simp only [setAttr, hk, if_false, Bool.false_eq_true]
        by_cases hkk : (k'' == k) = true
        · simp [getAttr, hkk]
        · simp [getAttr, hkk, getAttr_setAttr_ne k k' v h rest]

/-- Auxiliary: setting an attribute makes it readable back. -/
theorem getAttr_setAttr_self (k v : String) :
    ∀ attrs : List (String × String), getAttr (setAttr k v attrs) k = some v
  | [] => by simp [setAttr, getAttr]
  | (k'', v'') :: rest => by
      by_cases hk : (k'' == k) = true
      · simp [setAttr, getAttr, hk]
      · simp [setAttr, getAttr, hk, getAttr_setAttr_self k v rest]

/-- Auxiliary: the bold restyling does not change class membership. -/
theorem hasClass_setAttr_style (v cls : String) (attrs : List (String × String)) :
    hasClass (setAttr "style" v attrs) cls = hasClass attrs cls := by
  unfold hasClass
  rw [getAttr_setAttr_ne "class" "style" v (by decide) attrs]

/-- Auxiliary: the bold restyling does not change the id test. -/
theorem isFooterId_setAttr_style (v : String) (attrs : List (String × String)) :
    isFooterId (setAttr "style" v attrs) = isFooterId attrs := by
  unfold isFooterId
  rw [getAttr_setAttr_ne "id" "style" v (by decide) attrs]

/-- Auxiliary: the bold restyling does not change the image invariant. -/
theorem imgInv_setAttr_style (net : String → Option (String × String))
    (v tag : String) (attrs : List (String × String)) :
    imgInv net tag (setAttr "style" v attrs) = imgInv net tag attrs := by
  unfold imgInv
  rw [getAttr_setAttr_ne "src" "style" v (by decide) attrs]

/-- Auxiliary: a successfully built data URI never starts with "http". -/
theorem embedImage_not_http (net : String → Option (String × String))
    (url d : String) (hd : embedImage net url = some d) :
    goStartsWith d "http" = false := by
  unfold embedImage at hd
  cases hnet : net url with
  | none => rw [hnet] at hd; exact absurd hd (by simp)
  | some mb =>
      obtain ⟨mime, b64⟩ := mb
      rw [hnet] at hd
      simp only [Option.some.injEq] at hd
      subst hd
      by_cases hm : (mime == "") = true
      · simp only [if_pos hm]
        obtain ⟨bl⟩ := b64
        rfl
      · simp only [hm, if_false, Bool.false_eq_true]
        obtain ⟨ml⟩ := mime
        obtain ⟨bl⟩ := b64
        rfl

/-- Auxiliary: a per-element invariant survives `removeAllC` (surviving
elements keep their tag and attributes). -/
theorem allB_removeAllC (p q : String → List (String × String) → Bool) :
    ∀ f : HForest, allB p f = true → allB p (removeAllC q f) = true
  | .nil => fun h => h
  | .cons (.text s) t => fun h => by
      simp only [allB, removeAllC] at *
      exact allB_removeAllC p q t h
  | .cons (.elem tag attrs cs) t => fun h => by
      simp only [allB, Bool.and_eq_true] at h
      obtain ⟨⟨h1, h2⟩, h3⟩ := h
      simp only [removeAllC]
      by_cases hq : q tag attrs = true
      · simp only [if_pos hq]
        exact allB_removeAllC p q t h3
      · simp only [hq, if_false, Bool.false_eq_true, allB, Bool.and_eq_true]
        exact ⟨⟨h1, allB_removeAllC p q cs h2⟩, allB_removeAllC p q t h3⟩

/-- Auxiliary: a per-element invariant survives the first-footer-paragraph
removal. -/
theorem allB_rfpF (p : String → List (String × String) → Bool) :
    ∀ (f : HForest) (pf : Bool), allB p f = true → allB p (rfpF pf f).1 = true
  | .nil, pf => fun h => h
  | .cons (.text s) t, pf => fun h => by
      simp only [allB] at h
      simp only [rfpF, allB]
      exact allB_rfpF p t pf h
  | .cons (.elem tag attrs cs) t, pf => fun h => by
      simp only [allB, Bool.and_eq_true] at h
      obtain ⟨⟨h1, h2⟩, h3⟩ := h
      simp only [rfpF]
      by_cases hp : (pf && (tag == "p")) = true
      · simp only [if_pos hp]
        exact h3
      · simp only [hp, if_false, Bool.false_eq_true]
        split
        · simp only [allB, Bool.and_eq_true]
          exact ⟨⟨h1, allB_rfpF p cs (isFooterId attrs) h2⟩, h3⟩
        · simp only [allB, Bool.and_eq_true]
          exact ⟨⟨h1, allB_rfpF p cs (isFooterId attrs) h2⟩, allB_rfpF p t pf h3⟩

/-- Auxiliary: a per-element invariant survives the footer-custom-block
removal. -/
theorem allB_rcF (p : String → List (String × String) → Bool) :
    ∀ (f : HForest) (pf : Bool), allB p f = true → allB p (rcF pf f) = true
  | .nil, pf => fun h => h
  | .cons (.text s) t, pf => fun h => by
      simp only [allB, rcF] at *
      exact allB_rcF p t pf h
  | .cons (.elem tag attrs cs) t, pf => fun h => by
      simp only [allB, Bool.and_eq_true] at h
      obtain ⟨⟨h1, h2⟩, h3⟩ := h
      simp only [rcF]
      by_cases hc : (pf && hasClass attrs "custom-1sstyyn") = true
      · simp only [if_pos hc]
        exact allB_rcF p t pf h3
      · simp only [hc, if_false, Bool.false_eq_true, allB, Bool.and_eq_true]
        exact ⟨⟨h1, allB_rcF p cs (isFooterId attrs) h2⟩, allB_rcF p t pf h3⟩

/-- Auxiliary: a per-element invariant that is insensitive to the `style`
attribute survives the footer-emphasis pass. -/
theorem allB_boldF (p : String → List (String × String) → Bool)
    (hp : ∀ tag attrs v, p tag (setAttr "style" v attrs) = p tag attrs) :
    ∀ (f : HForest) (b : Bool), allB p f = true → allB p (boldF b f) = true
  | .nil, b => fun h => h
  | .cons (.text s) t, b => fun h => by
      simp only [allB, boldF] at *
      exact allB_boldF p hp t b h
  | .cons (.elem tag attrs cs) t, b => fun h => by
      simp only [allB, Bool.and_eq_true] at h
      obtain ⟨⟨h1, h2⟩, h3⟩ := h
      by_cases hm : (b && uidMatch tag cs) = true
      · simp only [boldF, allB]
        rw [if_pos hm, hp]
        simp only [Bool.and_eq_true]
        exact ⟨⟨h1, allB_boldF p hp cs _ h2⟩, allB_boldF p hp t b h3⟩
      · simp only [boldF, allB]
        rw [if_neg hm]
        simp only [Bool.and_eq_true]
        exact ⟨⟨h1, allB_boldF p hp cs _ h2⟩, allB_boldF p hp t b h3⟩

/-- Auxiliary: after `removeAllC q` no element satisfies `q`. -/
theorem allB_removeAllC_self (q : String → List (String × String) → Bool) :
    ∀ f : HForest, allB (fun tag attrs => !(q tag attrs)) (removeAllC q f) = true
  | .nil => rfl
  | .cons (.text s) t => by
      simp only [removeAllC, allB]
      exact allB_removeAllC_self q t
  | .cons (.elem tag attrs cs) t => by
      simp only [removeAllC]
      by_cases hq : q tag attrs = true
      · simp only [if_pos hq]
        exact allB_removeAllC_self q t
      · simp only [hq, if_false, Bool.false_eq_true, allB, Bool.and_eq_true]
        exact ⟨⟨by simp [hq], allB_removeAllC_self q cs⟩, allB_removeAllC_self q t⟩

/-- Auxiliary: the inlining pass establishes the image invariant on the
element it just processed. -/
theorem imgInv_inlineImgAttrs (net : String → Option (String × String))
    (tag : String) (attrs : List (String × String)) :
    imgInv net tag (inlineImgAttrs net tag attrs) = true := by
  unfold inlineImgAttrs
  by_cases htag : (tag == "img") = true
  · simp only [if_pos htag]
    cases hsrc : getAttr attrs "src" with
    | none =>
        unfold imgInv
        simp [htag, hsrc]
    | some src =>
        by_cases hhttp : goStartsWith src "http" = true
        · simp only [if_pos hhttp]
          cases hemb : embedImage net src with
          | none =>
              unfold imgInv
              simp [htag, hsrc, hhttp, hemb]
          | some d =>
              unfold imgInv
              simp only [htag, if_true, getAttr_setAttr_self]
              have hd := embedImage_not_http net src d hemb
              simp [hd]
        · have hh : goStartsWith src "http" = false := by simpa using hhttp
          unfold imgInv
          simp [htag, hsrc, hh]
  · simp only [htag, if_false, Bool.false_eq_true]
    unfold imgInv
    simp [htag]

/-- Auxiliary: after the inlining pass the image invariant holds everywhere. -/
theorem allB_iiF_imgInv (net : String → Option (String × String)) :
    ∀ f : HForest, allB (imgInv net) (iiF net f) = true
  | .nil => rfl
  | .cons (.text s) t => by
      simp only [iiF, allB]
      exact allB_iiF_imgInv net t
  | .cons (.elem tag attrs cs) t => by
      simp only [iiF, allB, Bool.and_eq_true]
      exact ⟨⟨imgInv_inlineImgAttrs net tag attrs, allB_iiF_imgInv net cs⟩,
        allB_iiF_imgInv net t⟩

/-- Auxiliary: after `rcF` no custom block remains as a direct child of a
footer section. -/
theorem nccB_rcF : ∀ (f : HForest) (pf : Bool), nccB pf (rcF pf f) = true
  | .nil, pf => rfl
  | .cons (.text s) t, pf => by
      simp only [rcF, nccB]
      exact nccB_rcF t pf
  | .cons (.elem tag attrs cs) t, pf => by
      simp only [rcF]
      by_cases hc : (pf && hasClass attrs "custom-1sstyyn") = true
      · simp only [if_pos hc]
        exact nccB_rcF t pf
      · simp only [hc, if_false, Bool.false_eq_true, nccB, Bool.and_eq_true]
        refine ⟨⟨?_, nccB_rcF cs (isFooterId attrs)⟩, nccB_rcF t pf⟩
        simp [hc]

/-- Auxiliary: the custom-block absence survives `removeAllC` (removal never
creates a new parent-child pair). -/
theorem nccB_removeAllC (q : String → List (String × String) → Bool) :
    ∀ (f : HForest) (pf : Bool), nccB pf f = true → nccB pf (removeAllC q f) = true
  | .nil, pf => fun h => h
  | .cons (.text s) t, pf => fun h => by
      simp only [nccB, removeAllC] at *
      exact nccB_removeAllC q t pf h
  | .cons (.elem tag attrs cs) t, pf => fun h => by
      simp only [nccB, Bool.and_eq_true] at h
      obtain ⟨⟨h1, h2⟩, h3⟩ := h
      simp only [removeAllC]
      by_cases hq : q tag attrs = true
      · simp only [if_pos hq]
        exact nccB_removeAllC q t pf h3
      · simp only [hq, if_false, Bool.false_eq_true, nccB, Bool.and_eq_true]
        exact ⟨⟨h1, nccB_removeAllC q cs (isFooterId attrs) h2⟩,
          nccB_removeAllC q t pf h3⟩

/-- Auxiliary: the custom-block absence survives the footer-emphasis pass
(only the `style` attribute changes). -/
theorem nccB_boldF :
    ∀ (f : HForest) (pf b : Bool), nccB pf f = true → nccB pf (boldF b f) = true
  | .nil, pf, b => fun h => h
  | .cons (.text s) t, pf, b => fun h => by
      simp only [nccB, boldF] at *
      exact nccB_boldF t pf b h
  | .cons (.elem tag attrs cs) t, pf, b => fun h => by
      simp only [nccB, Bool.and_eq_true] at h
      obtain ⟨⟨h1, h2⟩, h3⟩ := h
      by_cases hm : (b && uidMatch tag cs) = true
      · simp only [boldF, nccB]
        rw [if_pos hm, hasClass_setAttr_style, isFooterId_setAttr_style]
        simp only [Bool.and_eq_true]
        exact ⟨⟨h1, nccB_boldF cs (isFooterId attrs) _ h2⟩, nccB_boldF t pf b h3⟩
      · simp only [boldF, nccB]
        rw [if_neg hm]
        simp only [Bool.and_eq_true]
        exact ⟨⟨h1, nccB_boldF cs (isFooterId attrs) _ h2⟩, nccB_boldF t pf b h3⟩

/-- Auxiliary: `removeAllC` is the identity when no element matches. -/
theorem removeAllC_id (q : String → List (String × String) → Bool) :
    ∀ f : HForest, allB (fun tag attrs => !(q tag attrs)) f = true → removeAllC q f = f
  | .nil => fun _ => rfl
  | .cons (.text s) t => fun h => by
      simp only [allB] at h
      simp only [removeAllC, removeAllC_id q t h]
  | .cons (.elem tag attrs cs) t => fun h => by
      simp only [allB, Bool.and_eq_true] at h
      obtain ⟨⟨h1, h2⟩, h3⟩ := h
      have hq : q tag attrs = false := by simpa using h1
      simp [removeAllC, hq, removeAllC_id q cs h2, removeAllC_id q t h3]

/-- Auxiliary: under the image invariant an element's attributes are left
unchanged by the inlining body. -/
theorem inlineImgAttrs_id (net : String → Option (String × String))
    (tag : String) (attrs : List (String × String))
    (h : imgInv net tag attrs = true) :
    inlineImgAttrs net tag attrs = attrs := by
  unfold imgInv at h
  unfold inlineImgAttrs
  by_cases htag : (tag == "img") = true
  · rw [if_pos htag] at h
    simp only [if_pos htag]
    cases hsrc : getAttr attrs "src" with
    | none => simp [hsrc]
    | some src =>
        rw [hsrc] at h
        have h' : (if goStartsWith src "http" = true
            then (embedImage net src).isNone else true) = true := h
        show (if goStartsWith src "http" = true then
            match embedImage net src with
            | some dataURI => setAttr "src" dataURI attrs
            | none => attrs
          else attrs) = attrs
        by_cases hhttp : goStartsWith src "http" = true
        · rw [if_pos hhttp] at h'
          have hn : embedImage net src = none := by
            cases he : embedImage net src with
            | none => rfl
            | some d => rw [he] at h'; simp at h'
          rw [if_pos hhttp, hn]
        · rw [if_neg hhttp]
  · simp [htag]

/-- Auxiliary: the inlining pass is the identity under the image invariant. -/
theorem iiF_id (net : String → Option (String × String)) :
    ∀ f : HForest, allB (imgInv net) f = true → iiF net f = f
  | .nil => fun _ => rfl
  | .cons (.text s) t => fun h => by
      simp only [allB] at h
      simp only [iiF, iiF_id net t h]
  | .cons (.elem tag attrs cs) t => fun h => by
      simp only [allB, Bool.and_eq_true] at h
      obtain ⟨⟨h1, h2⟩, h3⟩ := h
      simp only [iiF, inlineImgAttrs_id net tag attrs h1, iiF_id net cs h2, iiF_id net t h3]

/-- Auxiliary: the first-footer-paragraph removal does nothing when no
element matches. -/
theorem rfpF_id :
    ∀ (f : HForest) (pf : Bool), hasFooterP pf f = false → rfpF pf f = (f, false)
  | .nil, pf => fun _ => rfl
  | .cons (.text s) t, pf => fun h => by
      simp only [hasFooterP] at h
      simp only [rfpF, rfpF_id t pf h]
  | .cons (.elem tag attrs cs) t, pf => fun h => by
      simp only [hasFooterP, Bool.or_eq_false_iff] at h
      obtain ⟨⟨h1, h2⟩, h3⟩ := h
      simp only [rfpF, h1, if_false, Bool.false_eq_true, rfpF_id cs (isFooterId attrs) h2,
        rfpF_id t pf h3]

/-- Auxiliary: the custom-block removal is the identity when no element
matches. -/
theorem rcF_id :
    ∀ (f : HForest) (pf : Bool), nccB pf f = true → rcF pf f = f
  | .nil, pf => fun _ => rfl
  | .cons (.text s) t, pf => fun h => by
      simp only [nccB] at h
      simp only [rcF, rcF_id t pf h]
  | .cons (.elem tag attrs cs) t, pf => fun h => by
      simp only [nccB, Bool.and_eq_true] at h
      obtain ⟨⟨h1, h2⟩, h3⟩ := h
      have hc : (pf && hasClass attrs "custom-1sstyyn") = false := by
        cases hx : (pf && hasClass attrs "custom-1sstyyn") with
        | false => rfl
        | true => rw [hx] at h1; simp at h1
      simp [rcF, hc, rcF_id cs (isFooterId attrs) h2, rcF_id t pf h3]

/-- Auxiliary: the footer-emphasis pass is the identity when every matching
element already carries the bold style. -/
theorem boldF_id :
    ∀ (f : HForest) (b : Bool), bFixB b f = true → boldF b f = f
  | .nil, b => fun _ => rfl
  | .cons (.text s) t, b => fun h => by
      simp only [bFixB] at h
      simp only [boldF, boldF_id t b h]
  | .cons (.elem tag attrs cs) t, b => fun h => by
      simp only [bFixB] at h
      rw [Bool.and_eq_true, Bool.and_eq_true] at h
      obtain ⟨⟨h1, h2⟩, h3⟩ := h
      by_cases hm : (b && uidMatch tag cs) = true
      · rw [if_pos hm] at h1
        have heq : setAttr "style" "font-weight:600" attrs = attrs := of_decide_eq_true h1
        simp only [boldF]
        rw [if_pos hm]
        rw [heq]
        simp only [boldF_id cs _ h2, boldF_id t b h3]
      · simp only [boldF]
        rw [if_neg hm]
        simp only [boldF_id cs _ h2, boldF_id t b h3]

/-- Auxiliary: the first-footer-paragraph pass reports a removal exactly
when some element matches `#footer_section > p`. -/
theorem rfpF_removed_eq :
    ∀ (f : HForest) (pf : Bool), (rfpF pf f).2 = hasFooterP pf f
  | .nil, pf => rfl
  | .cons (.text s) t, pf => by
      simp only [rfpF, hasFooterP]
      exact rfpF_removed_eq t pf
  | .cons (.elem tag attrs cs) t, pf => by
      by_cases hp : (pf && (tag == "p")) = true
      · simp [rfpF, hasFooterP, hp]
      · have hpf : (pf && (tag == "p")) = false := by
          cases hx : (pf && (tag == "p")) with
          | false => rfl
          | true => exact absurd hx hp
        cases hrc : (rfpF (isFooterId attrs) cs).2 with
        | true =>
            have hcs : hasFooterP (isFooterId attrs) cs = true := by
              rw [← rfpF_removed_eq cs (isFooterId attrs)]
              exact hrc
            simp [rfpF, hasFooterP, hp, hpf, hrc, hcs]
        | false =>
            have hcs : hasFooterP (isFooterId attrs) cs = false := by
              rw [← rfpF_removed_eq cs (isFooterId attrs)]
              exact hrc
            simp [rfpF, hasFooterP, hp, hpf, hrc, hcs, rfpF_removed_eq t pf]

/-- Auxiliary: removals never increase the number of elements. -/
theorem len_allElemsF_removeAllC (q : String → List (String × String) → Bool) :
    ∀ f : HForest, (allElemsF (removeAllC q f)).length ≤ (allElemsF f).length
  | .nil => le_refl _
  | .cons (.text s) t => by
      simp only [removeAllC, allElemsF]
      exact len_allElemsF_removeAllC q t
  | .cons (.elem tag attrs cs) t => by
      by_cases hq : q tag attrs = true
      · simp only [removeAllC, if_pos hq, allElemsF, List.length_cons, List.length_append]
        have ht := len_allElemsF_removeAllC q t
        omega
      · simp only [removeAllC, hq, if_false, Bool.false_eq_true, allElemsF,
          List.length_cons, List.length_append]
        have hcs := len_allElemsF_removeAllC q cs
        have ht := len_allElemsF_removeAllC q t
        omega

/-- Auxiliary: the custom-block removal never increases the number of
elements. -/
theorem len_allElemsF_rcF :
    ∀ (f : HForest) (pf : Bool), (allElemsF (rcF pf f)).length ≤ (allElemsF f).length
  | .nil, pf => le_refl _
  | .cons (.text s) t, pf => by
      simp only [rcF, allElemsF]
      exact len_allElemsF_rcF t pf
  | .cons (.elem tag attrs cs) t, pf => by
      by_cases hc : (pf && hasClass attrs "custom-1sstyyn") = true
      · simp only [rcF, if_pos hc, allElemsF, List.length_cons, List.length_append]
        have ht := len_allElemsF_rcF t pf
        omega
      · simp only [rcF, hc, if_false, Bool.false_eq_true, allElemsF,
          List.length_cons, List.length_append]
        have hcs := len_allElemsF_rcF cs (isFooterId attrs)
        have ht := len_allElemsF_rcF t pf
        omega

/-- Auxiliary: the footer-emphasis pass keeps the number of elements. -/
theorem len_allElemsF_boldF :
    ∀ (f : HForest) (b : Bool), (allElemsF (boldF b f)).length = (allElemsF f).length
  | .nil, b => rfl
  | .cons (.text s) t, b => by
      simp only [boldF, allElemsF]
      exact len_allElemsF_boldF t b
  | .cons (.elem tag attrs cs) t, b => by
      simp only [boldF, allElemsF, List.length_cons, List.length_append]
      have hcs := len_allElemsF_boldF cs (b || hasClass attrs "footer-copy")
      have ht := len_allElemsF_boldF t b
      omega

/-- Auxiliary: when the first-footer-paragraph pass removes a paragraph the
number of elements strictly decreases. -/
theorem len_allElemsF_rfpF :
    ∀ (f : HForest) (pf : Bool), (rfpF pf f).2 = true →
      (allElemsF (rfpF pf f).1).length < (allElemsF f).length
  | .nil, pf => fun h => by simp [rfpF] at h
  | .cons (.text s) t, pf => fun h => by
      simp only [rfpF] at h ⊢
      simp only [allElemsF]
      exact len_allElemsF_rfpF t pf h
  | .cons (.elem tag attrs cs) t, pf => fun h => by
      by_cases hp : (pf && (tag == "p")) = true
      · simp only [rfpF, if_pos hp, allElemsF, List.length_cons, List.length_append]
        omega
      · have hpf : (pf && (tag == "p")) = false := by
          cases hx : (pf && (tag == "p")) with
          | false => rfl
          | true => exact absurd hx hp
        cases hrc : (rfpF (isFooterId attrs) cs).2 with
        | true =>
            simp only [rfpF, hpf, Bool.false_eq_true, if_false, hrc, if_true, allElemsF,
              List.length_cons, List.length_append]
            have hlt := len_allElemsF_rfpF cs (isFooterId attrs) hrc
            omega
        | false =>
            have hcs : hasFooterP (isFooterId attrs) cs = false := by
              rw [← rfpF_removed_eq cs (isFooterId attrs)]
              exact hrc
            have hid := rfpF_id cs (isFooterId attrs) hcs
            simp only [rfpF, hpf, Bool.false_eq_true, if_false, hrc, hid] at h ⊢
            simp only [allElemsF, List.length_cons, List.length_append]
            have hlt := len_allElemsF_rfpF t pf h
            omega

/-- Auxiliary: if the footer-emphasis pass returns its input unchanged, then
every matching element already carried the bold style. -/
theorem boldF_fix_of_eq :
    ∀ (f : HForest) (b : Bool), boldF b f = f → bFixB b f = true
  | .nil, b => fun _ => rfl
  | .cons (.text s) t, b => fun h => by
      simp only [boldF] at h
      injection h with h1 h2
      simp only [bFixB]
      exact boldF_fix_of_eq t b h2
  | .cons (.elem tag attrs cs) t, b => fun h => by
      simp only [boldF] at h
      injection h with h1 h2
      injection h1 with htag hattrs hcs
      simp only [bFixB]
      rw [Bool.and_eq_true, Bool.and_eq_true]
      refine ⟨⟨?_, boldF_fix_of_eq cs _ hcs⟩, boldF_fix_of_eq t b h2⟩
      by_cases hm : (b && uidMatch tag cs) = true
      · rw [if_pos hm] at hattrs ⊢
        exact decide_eq_true hattrs
      · rw [if_neg hm]

/-- C9 (counterexample): on a document whose footer section has two direct
paragraph children, re-applying the transform (with the same failing image
fetches) removes one more paragraph, so the output is not identical. -/
theorem c9_idempotence_counterexample :
    cleanHTMLDoc noNet (cleanHTMLDoc noNet twoPFooter) ≠ cleanHTMLDoc noNet twoPFooter := by
  decide

/-- C9 (amended): the transform is deterministic given the input and the
external image fetch results (it is a function of both), but re-applying it
removes one additional first direct footer paragraph, so it is not
idempotent in general; with fetch results held fixed, re-applying the
transform returns an identical document exactly when — if and only if — the
transformed output has no remaining `#footer_section > p` match and no
tax-label footer paragraph left unstyled. -/
theorem c9_idempotent_on_fixed_points (net : String → Option (String × String))
    (doc : HForest) :
    cleanHTMLDoc net (cleanHTMLDoc net doc) = cleanHTMLDoc net doc ↔
      (hasFooterP false (cleanHTMLDoc net doc) = false ∧
       bFixB false (cleanHTMLDoc net doc) = true) := by
  have himg : allB (imgInv net) (cleanHTMLDoc net doc) = true := by
    unfold cleanHTMLDoc removeFirstFooterP
    exact allB_removeAllC _ isILG _
      (allB_boldF _ (fun tag attrs v => imgInv_setAttr_style net v tag attrs) _ _
        (allB_rcF _ _ _
          (allB_rfpF _ _ _
            (allB_removeAllC _ isABC _ (allB_iiF_imgInv net doc)))))
  have habc : allB (fun tag attrs => !(isABC tag attrs)) (cleanHTMLDoc net doc) = true := by
    unfold cleanHTMLDoc removeFirstFooterP
    exact allB_removeAllC _ isILG _
      (allB_boldF _ (fun tag attrs v => by simp only [isABC, hasClass_setAttr_style]) _ _
        (allB_rcF _ _ _
          (allB_rfpF _ _ _ (allB_removeAllC_self isABC _))))
  have hncc : nccB false (cleanHTMLDoc net doc) = true := by
    unfold cleanHTMLDoc removeFirstFooterP
    exact nccB_removeAllC isILG _ false (nccB_boldF _ false false (nccB_rcF _ false))
  have hilg : allB (fun tag attrs => !(isILG tag attrs)) (cleanHTMLDoc net doc) = true := by
    unfold cleanHTMLDoc
    exact allB_removeAllC_self isILG _
  have e1 : iiF net (cleanHTMLDoc net doc) = cleanHTMLDoc net doc :=
    iiF_id net _ himg
  have e2 : removeAllC isABC (cleanHTMLDoc net doc) = cleanHTMLDoc net doc :=
    removeAllC_id isABC _ habc
  have hrw : cleanHTMLDoc net (cleanHTMLDoc net doc)
      = removeAllC isILG (boldF false (rcF false
          ((rfpF false (cleanHTMLDoc net doc)).1))) := by
    calc cleanHTMLDoc net (cleanHTMLDoc net doc)
        = removeAllC isILG (boldF false (rcF false ((rfpF false (removeAllC isABC
            (iiF net (cleanHTMLDoc net doc)))).1))) := rfl
      _ = removeAllC isILG (boldF false (rcF false
            ((rfpF false (cleanHTMLDoc net doc)).1))) := by rw [e1, e2]
  constructor
  · intro heq
    have hfp : hasFooterP false (cleanHTMLDoc net doc) = false := by
      cases hx : hasFooterP false (cleanHTMLDoc net doc) with
      | false => rfl
      | true =>
          exfalso
          have h2 : (rfpF false (cleanHTMLDoc net doc)).2 = true := by
            rw [rfpF_removed_eq]
            exact hx
          have hlt := len_allElemsF_rfpF (cleanHTMLDoc net doc) false h2
          have hrc := len_allElemsF_rcF ((rfpF false (cleanHTMLDoc net doc)).1) false
          have hb := len_allElemsF_boldF
            (rcF false ((rfpF false (cleanHTMLDoc net doc)).1)) false
          have hrm := len_allElemsF_removeAllC isILG
            (boldF false (rcF false ((rfpF false (cleanHTMLDoc net doc)).1)))
          rw [heq] at hrw
          have hlen := congrArg (fun f => (allElemsF f).length) hrw
          simp only at hlen
          omega
    have hrfp1 : (rfpF false (cleanHTMLDoc net doc)).1 = cleanHTMLDoc net doc := by
      rw [rfpF_id _ false hfp]
    have e4 : rcF false (cleanHTMLDoc net doc) = cleanHTMLDoc net doc :=
      rcF_id _ false hncc
    have heq2 : removeAllC isILG (boldF false (cleanHTMLDoc net doc))
        = cleanHTMLDoc net doc := by
      rw [hrfp1, e4] at hrw
      rw [← hrw]
      exact heq
    have hbILG : allB (fun tag attrs => !(isILG tag attrs))
        (boldF false (cleanHTMLDoc net doc)) = true :=
      allB_boldF _ (fun tag attrs v => by simp only [isILG, hasClass_setAttr_style]) _ _ hilg
    have heq3 : boldF false (cleanHTMLDoc net doc) = cleanHTMLDoc net doc := by
      rw [removeAllC_id isILG _ hbILG] at heq2
      exact heq2
    exact ⟨hfp, boldF_fix_of_eq _ false heq3⟩
  · rintro ⟨hfp, hbf⟩
    have hrfp1 : (rfpF false (cleanHTMLDoc net doc)).1 = cleanHTMLDoc net doc := by
      rw [rfpF_id _ false hfp]
    have e4 : rcF false (cleanHTMLDoc net doc) = cleanHTMLDoc net doc :=
      rcF_id _ false hncc
    have e5 : boldF false (cleanHTMLDoc net doc) = cleanHTMLDoc net doc :=
      boldF_id _ false hbf
    have e6 : removeAllC isILG (cleanHTMLDoc net doc) = cleanHTMLDoc net doc :=
      removeAllC_id isILG _ hilg
    rw [hrw, hrfp1, e4, e5, e6]

/-- C9 (witness): a concrete document satisfying both fixed-point conditions
on which the transform is idempotent, via the right-to-left direction. -/
theorem c9_idempotent_witness :
    hasFooterP false (cleanHTMLDoc noNet plainDiv) = false ∧
    bFixB false (cleanHTMLDoc noNet plainDiv) = true ∧
    cleanHTMLDoc noNet (cleanHTMLDoc noNet plainDiv) = cleanHTMLDoc noNet plainDiv :=
  ⟨by decide, by decide,
   (c9_idempotent_on_fixed_points noNet plainDiv).mpr ⟨by decide, by decide⟩⟩

/-- C2 (witness): the window formula at `total = 5`, `n = 3`, and the
empty-mailbox early return on a concrete session. -/
theorem c2_scan_window_witness :
    (0 : Nat) < 3 ∧ seqRange 5 3 = (5 - min 3 5 + 1, 5) ∧
    fetchInvoices emptySess dupCfg dupNow = Except.ok [] :=
  ⟨by decide, (c2_scan_window 5 3).1 (by decide),
   (c2_scan_window 0 0).2.2.2.2 emptySess dupCfg dupNow rfl rfl rfl rfl⟩
